import Mathlib

/-!
Verification of the BlurShield content script (the Mark Persistence &
Restoration Engine).  The definitions below are a shallow embedding of the
TypeScript content script: pure decision logic is translated to Lean
functions, DOM-dependent code is translated to explicit state passing over
record types that capture exactly the fields the code reads and writes, and
fallible DOM operations are modelled by `Option` results or by explicit
success flags where the source wraps them in try/catch.
-/

namespace BlurShield

/-! ## Mark data model

The persisted record of one obscuring action (interface `BlurData` in the
content script: `selector`, `type : "element" | "area" | "text"`, optional
`coords`, optional `text`, `timestamp`). -/

/-- The tagged kind of a persisted mark (`BlurData.type`). -/
inductive BlurType where
  | element
  | area
  | text
deriving DecidableEq, Repr

/-- Region coordinates (the `coords` field of `BlurData`). -/
structure Coords where
  x : Int
  y : Int
  width : Int
  height : Int
deriving DecidableEq, Repr

/-- A persisted mark record (interface `BlurData` of the content script). -/
structure BlurData where
  selector : String
  type : BlurType
  coords : Option Coords
  text : Option String
  timestamp : Nat
deriving DecidableEq, Repr

/-- The element-mark constructor as built in `blurElement`:
`{ selector, type: "element", timestamp: Date.now() }`. -/
def mkElementBlur (selector : String) (ts : Nat) : BlurData :=
  { selector := selector, type := .element, coords := none, text := none,
    timestamp := ts }

/-- The area-mark constructor as built in `createBlurArea`: selector from the
coordinates, `type: "area"`, a `coords` record and no `text`. -/
def mkAreaBlur (selector : String) (c : Coords) (ts : Nat) : BlurData :=
  { selector := selector, type := .area, coords := some c, text := none,
    timestamp := ts }

/-- The text-mark constructor as built in `handleTextSelection`:
`{ selector, type: "text", text: selectedText, timestamp }`. -/
def mkTextBlur (selector : String) (t : String) (ts : Nat) : BlurData :=
  { selector := selector, type := .text, coords := none, text := some t,
    timestamp := ts }

/-- The kind-determines-fields invariant on a mark: an element mark has
neither coordinates nor text, an area mark has coordinates and no text, a
text mark has text and no coordinates. -/
def kindFieldsOk (b : BlurData) : Bool :=
  match b.type with
  | .element => b.coords.isNone && b.text.isNone
  | .area => b.coords.isSome && b.text.isNone
  | .text => b.text.isSome && b.coords.isNone

/-! ## Blur intensity adjustment (`adjustBlurIntensity`) -/

/-- `adjustBlurIntensity(change)`: clamps `blurIntensity + change` to
`[1, 10]`; when the clamped value equals the current one it only shows a
limit notification (second component `true`) and leaves the intensity
unchanged. -/
def adjustBlurIntensity (blurIntensity : Int) (change : Int) : Int × Bool :=
  let newIntensity := max 1 (min 10 (blurIntensity + change))
  if newIntensity = blurIntensity then (blurIntensity, true)
  else (newIntensity, false)

/-! ## Region-draw release (`handleMouseUp`) -/

/-- Outcome of the mouse-up handler in region-draw mode. -/
inductive MouseUpOutcome where
  | ignored
  | tooSmall
  | tooLarge
  | quotaBlocked
  | committed
deriving DecidableEq, Repr

/-- The committed area mark, as assembled by `createBlurArea` from the
preview rectangle (left/top are the min corners set by `handleMouseMove`,
plus the scroll offsets). -/
def areaMarkOfRect (startX startY eventX eventY scrollX scrollY : Int)
    (ts : Nat) : BlurData :=
  let left := min eventX startX + scrollX
  let top := min eventY startY + scrollY
  let w := |eventX - startX|
  let h := |eventY - startY|
  mkAreaBlur (toString left ++ "," ++ toString top)
    { x := left, y := top, width := w, height := h } ts

/-- `handleMouseUp`: guards (enabled, drawing mode, anchor, preview overlay
present), then the minimum-size check (`width < 10 || height < 10`
discards), the tier maximum-size check, the daily-quota check, and finally
`createBlurArea` which appends the region mark to the store. -/
def handleMouseUp (isEnabled isDrawingMode : Bool)
    (startCoords : Option (Int × Int)) (hasOverlay : Bool)
    (eventX eventY : Int) (maxW maxH : Int) (canAddBlur : Bool)
    (scrollX scrollY : Int) (ts : Nat) (store : List BlurData) :
    MouseUpOutcome × List BlurData :=
  match startCoords with
  | none => (.ignored, store)
  | some (sx, sy) =>
    if !isEnabled || !isDrawingMode || !hasOverlay then (.ignored, store)
    else
      let width := |eventX - sx|
      let height := |eventY - sy|
      if width < 10 ∨ height < 10 then (.tooSmall, store)
      else if maxW < width ∨ maxH < height then (.tooLarge, store)
      else if !canAddBlur then (.quotaBlocked, store)
      else (.committed,
        store ++ [areaMarkOfRect sx sy eventX eventY scrollX scrollY ts])

/-! ## Local shadow copy (`saveBlurDataLocally` / `loadBlurDataLocally`)
and load reconciliation (`loadBlurData` / `syncLocalDataIfNeeded`) -/

/-- The record written to `localStorage` under the key
`"blur-anything-data"`: the page URL, the current mark list, and a
timestamp (`Date.now()`). -/
structure LocalRecord where
  url : String
  blurData : Option (List BlurData)
  timestamp : Nat
deriving DecidableEq, Repr

/-- `saveBlurDataLocally`: stores the current store keyed to the current
page URL. -/
def saveBlurDataLocally (currentUrl : String) (blurredElements : List BlurData)
    (now : Nat) : LocalRecord :=
  { url := currentUrl, blurData := some blurredElements, timestamp := now }

/-- `loadBlurDataLocally`: returns the stored list only when a record is
present, parses (a `stored = none` argument models both a missing record
and a JSON parse failure, which the catch block maps to the same result),
carries a `blurData` field and its `url` equals the current page URL;
otherwise returns the empty list. -/
def loadBlurDataLocally (stored : Option LocalRecord) (currentUrl : String) :
    List BlurData :=
  match stored with
  | none => []
  | some data =>
    match data.blurData with
    | some bd => if data.url = currentUrl then bd else []
    | none => []

/-- The background script's `saveBlurData` message handler over the
in-extension store (the `blurredElements` map in `browser.storage.sync`,
keyed by page URL): the incoming list is written under `message.url` only
when the message carries a url (`if (saveUrl)`); a url-less save is
silently dropped, though the handler still answers success. -/
def backgroundSaveBlurData (store : String → List BlurData)
    (msgUrl : Option String) (blurData : List BlurData) :
    String → List BlurData :=
  match msgUrl with
  | some u => fun u2 => if u2 = u then blurData else store u2
  | none => store

/-- `syncLocalDataIfNeeded`: if the local record parses, is for the current
URL, has a non-empty list and a truthy timestamp, and the local count is
strictly greater than the count just loaded from the in-extension store,
the local list replaces the in-memory store and a `saveBlurData` resync
message is dispatched (second component `true`).  That resync message
carries only `action` and `blurData` — no `url` field — so the
background's handler drops the write and the in-extension store (third
component) is left as it was. -/
def syncLocalDataIfNeeded (stored : Option LocalRecord) (currentUrl : String)
    (blurredElements : List BlurData) (extStore : String → List BlurData) :
    List BlurData × Bool × (String → List BlurData) :=
  match stored with
  | none => (blurredElements, false, extStore)
  | some data =>
    match data.blurData with
    | none => (blurredElements, false, extStore)
    | some bd =>
      if data.url = currentUrl ∧ bd.length ≠ 0 ∧ data.timestamp ≠ 0 then
        if blurredElements.length < bd.length then
          (bd, true, backgroundSaveBlurData extStore none bd)
        else (blurredElements, false, extStore)
      else (blurredElements, false, extStore)

/-- The fallback tier of `loadBlurData`: consult the in-extension store
(`extensionResult = none` models the `sendMessage` call throwing, in which
case the local shadow copy is loaded directly; `some none` models a null
response, defaulted to `[]`), then run `syncLocalDataIfNeeded`. -/
def loadFallback (extensionResult : Option (Option (List BlurData)))
    (stored : Option LocalRecord) (currentUrl : String)
    (extStore : String → List BlurData) :
    List BlurData × Bool × (String → List BlurData) :=
  match extensionResult with
  | some bd => syncLocalDataIfNeeded stored currentUrl (bd.getD []) extStore
  | none => (loadBlurDataLocally stored currentUrl, false, extStore)

/-- `loadBlurData`: when authenticated, try Firebase first
(`firebaseData = none` models either a sync failure or no data); a
non-empty Firebase result wins outright, anything else falls through to the
extension-storage / local-cache fallback tier.  Returns the loaded list,
whether a resync message was dispatched, and the resulting in-extension
store. -/
def loadBlurData (isAuthenticated : Bool)
    (firebaseData : Option (List BlurData))
    (extensionResult : Option (Option (List BlurData)))
    (stored : Option LocalRecord) (currentUrl : String)
    (extStore : String → List BlurData) :
    List BlurData × Bool × (String → List BlurData) :=
  match (if isAuthenticated then firebaseData else none) with
  | some l =>
    if 0 < l.length then (l, false, extStore)
    else loadFallback extensionResult stored currentUrl extStore
  | none => loadFallback extensionResult stored currentUrl extStore

/-! ## Theorems for the mark data model and the simple operations -/

/-- C8: every mark record the system constructs (via `blurElement`,
`createBlurArea` or `handleTextSelection`) satisfies the
kind-determines-fields invariant, and in particular no constructed mark has
both `coords` and `text` populated. -/
theorem constructed_marks_kindFields (sel selA selT : String) (c : Coords)
    (t : String) (ts1 ts2 ts3 : Nat) :
    kindFieldsOk (mkElementBlur sel ts1) = true ∧
    kindFieldsOk (mkAreaBlur selA c ts2) = true ∧
    kindFieldsOk (mkTextBlur selT t ts3) = true ∧
    (∀ b : BlurData,
      (b = mkElementBlur sel ts1 ∨ b = mkAreaBlur selA c ts2 ∨
        b = mkTextBlur selT t ts3) →
      ¬(b.coords.isSome = true ∧ b.text.isSome = true)) := by
  refine ⟨rfl, rfl, rfl, ?_⟩
  rintro b (rfl | rfl | rfl) <;> simp [mkElementBlur, mkAreaBlur, mkTextBlur]

/-- C9: starting from any intensity in `[1, 10]`, an adjustment of `+1` or
`-1` keeps the intensity in `[1, 10]`, and an adjustment that would cross a
bound leaves the intensity unchanged (only a notification is shown). -/
theorem adjustBlurIntensity_bounds (i c : Int) (h1 : 1 ≤ i) (h2 : i ≤ 10)
    (hc : c = 1 ∨ c = -1) :
    1 ≤ (adjustBlurIntensity i c).1 ∧ (adjustBlurIntensity i c).1 ≤ 10 ∧
    ((i + c < 1 ∨ 10 < i + c) →
      (adjustBlurIntensity i c).1 = i ∧ (adjustBlurIntensity i c).2 = true) := by
  unfold adjustBlurIntensity
  dsimp only
  split <;> rename_i hsplit
  · exact ⟨h1, h2, fun _ => ⟨rfl, rfl⟩⟩
  · refine ⟨le_max_left _ _,
      max_le (by norm_num) (le_trans (min_le_left _ _) (by norm_num)),
      fun hcross => (hsplit ?_).elim⟩
    rcases hc with rfl | rfl
    · have h10 : i = 10 := by omega
      subst h10; norm_num
    · have hlow : i = 1 := by omega
      subst hlow; norm_num

/-- Witness for `adjustBlurIntensity_bounds` at intensity 10, change +1. -/
theorem adjustBlurIntensity_bounds_witness :
    1 ≤ (adjustBlurIntensity 10 1).1 ∧ (adjustBlurIntensity 10 1).1 ≤ 10 ∧
    (((10 : Int) + 1 < 1 ∨ 10 < (10 : Int) + 1) →
      (adjustBlurIntensity 10 1).1 = 10 ∧
      (adjustBlurIntensity 10 1).2 = true) :=
  adjustBlurIntensity_bounds 10 1 (by decide) (by decide) (Or.inl rfl)

/-- C5: on region-draw release (enabled, drawing mode, anchor and preview
present), a rectangle of exactly width 10 and height 10 that passes the
maximum-size and quota checks commits a region mark appended to the store,
while a rectangle with width 9 or height 9 commits nothing and leaves the
store unchanged. -/
theorem handleMouseUp_min_size (sx sy ex ey maxW maxH scrollX scrollY : Int)
    (ts : Nat) (store : List BlurData)
    (hw : |ex - sx| = 10 → |ey - sy| = 10 →
      |ex - sx| ≤ maxW ∧ |ey - sy| ≤ maxH) :
    ((|ex - sx| = 10 ∧ |ey - sy| = 10) →
      handleMouseUp true true (some (sx, sy)) true ex ey maxW maxH true
          scrollX scrollY ts store =
        (.committed,
          store ++ [areaMarkOfRect sx sy ex ey scrollX scrollY ts])) ∧
    ((|ex - sx| = 9 ∨ |ey - sy| = 9) →
      (handleMouseUp true true (some (sx, sy)) true ex ey maxW maxH true
          scrollX scrollY ts store).1 ≠ .committed ∧
      (handleMouseUp true true (some (sx, sy)) true ex ey maxW maxH true
          scrollX scrollY ts store).2 = store) := by
  simp only [handleMouseUp, Bool.not_true, Bool.or_self, Bool.false_eq_true,
    if_false]
  constructor
  · rintro ⟨h10w, h10h⟩
    obtain ⟨hmw, hmh⟩ := hw h10w h10h
    rw [if_neg (by rw [h10w, h10h]; norm_num),
      if_neg (by push_neg; exact ⟨hmw, hmh⟩)]
  · intro h9
    have hsmall : |ex - sx| < 10 ∨ |ey - sy| < 10 := by
      rcases h9 with h | h <;> [left; right] <;> rw [h] <;> norm_num
    rw [if_pos hsmall]
    exact ⟨by simp, rfl⟩

/-- Witness for `handleMouseUp_min_size`: anchor (0,0), release at (10,10). -/
theorem handleMouseUp_min_size_witness :
    ((|(10 : Int) - 0| = 10 ∧ |(10 : Int) - 0| = 10) →
      handleMouseUp true true (some (0, 0)) true 10 10 500 500 true 0 0 7 [] =
        (.committed, [] ++ [areaMarkOfRect 0 0 10 10 0 0 7])) ∧
    ((|(10 : Int) - 0| = 9 ∨ |(10 : Int) - 0| = 9) →
      (handleMouseUp true true (some (0, 0)) true 10 10 500 500 true 0 0 7
          []).1 ≠ .committed ∧
      (handleMouseUp true true (some (0, 0)) true 10 10 500 500 true 0 0 7
          []).2 = []) :=
  handleMouseUp_min_size 0 0 10 10 500 500 0 0 7 []
    (fun _ _ => by constructor <;> decide)

/-- C10: the crash/reload shadow copy is keyed to the exact page URL: a
record saved by `saveBlurDataLocally` on one URL is returned by
`loadBlurDataLocally` on that same URL, is never returned on a different
URL, and an absent or unparseable record yields the empty list. -/
theorem loadBlurDataLocally_url_keyed (urlA urlB : String)
    (marks : List BlurData) (now : Nat) (hne : urlA ≠ urlB) :
    loadBlurDataLocally (some (saveBlurDataLocally urlA marks now)) urlA =
      marks ∧
    loadBlurDataLocally (some (saveBlurDataLocally urlA marks now)) urlB =
      [] ∧
    loadBlurDataLocally none urlB = [] := by
  refine ⟨?_, ?_, rfl⟩ <;>
    simp [loadBlurDataLocally, saveBlurDataLocally, hne]

/-- Witness for `loadBlurDataLocally_url_keyed` with two distinct URLs. -/
theorem loadBlurDataLocally_url_keyed_witness :
    loadBlurDataLocally
        (some (saveBlurDataLocally "https://a.example/" [] 5))
        "https://a.example/" = [] ∧
    loadBlurDataLocally
        (some (saveBlurDataLocally "https://a.example/" [] 5))
        "https://b.example/" = [] ∧
    loadBlurDataLocally none "https://b.example/" = [] :=
  loadBlurDataLocally_url_keyed "https://a.example/" "https://b.example/" []
    5 (by decide)

/-- C4 counterexample: an unauthenticated load where the in-extension
store returned one mark for url "u" and the local cache holds two.  The
local list replaces the loaded store and the resync message is dispatched,
but the in-extension store still answers with the old single-mark list —
the local cache is not resynced back into the in-extension store, because
the resync message omits the `url` field and the background handler drops
url-less saves. -/
theorem loadBlurData_resync_counterexample :
    (loadBlurData false none (some (some [mkElementBlur "#a" 1]))
        (some (saveBlurDataLocally "u"
          [mkElementBlur "#a" 1, mkTextBlur "#t" "x" 2] 9)) "u"
        (fun u => if u = "u" then [mkElementBlur "#a" 1] else [])).1 =
      [mkElementBlur "#a" 1, mkTextBlur "#t" "x" 2] ∧
    (loadBlurData false none (some (some [mkElementBlur "#a" 1]))
        (some (saveBlurDataLocally "u"
          [mkElementBlur "#a" 1, mkTextBlur "#t" "x" 2] 9)) "u"
        (fun u => if u = "u" then [mkElementBlur "#a" 1] else [])).2.1 =
      true ∧
    (loadBlurData false none (some (some [mkElementBlur "#a" 1]))
        (some (saveBlurDataLocally "u"
          [mkElementBlur "#a" 1, mkTextBlur "#t" "x" 2] 9)) "u"
        (fun u => if u = "u" then [mkElementBlur "#a" 1] else [])).2.2 "u" =
      [mkElementBlur "#a" 1] ∧
    [mkElementBlur "#a" 1] ≠
      [mkElementBlur "#a" 1, mkTextBlur "#t" "x" 2] := by
  refine ⟨rfl, rfl, rfl, ?_⟩
  decide

/-- C4 amended: on load, a non-empty Firebase result becomes the store
outright; otherwise, when the in-extension store answers, the local
cache's list replaces its result — and a resync `saveBlurData` message is
dispatched — exactly when the local cache holds strictly more entries than
the in-extension store returned; the dispatched resync message, however,
lacks the `url` field the background handler requires, so the in-extension
store itself is never updated. -/
theorem loadBlurData_reconciliation_amended (isAuth : Bool)
    (fb : Option (List BlurData))
    (extRes : Option (Option (List BlurData)))
    (stored : Option LocalRecord) (url : String)
    (extStore : String → List BlurData)
    (hts : ∀ r, stored = some r → r.timestamp ≠ 0) :
    (∀ l, isAuth = true → fb = some l → l ≠ [] →
      loadBlurData isAuth fb extRes stored url extStore =
        (l, false, extStore)) ∧
    (∀ extBd, (isAuth = false ∨ fb = none ∨ fb = some []) →
      extRes = some extBd →
      loadBlurData isAuth fb extRes stored url extStore =
        (if (extBd.getD []).length < (loadBlurDataLocally stored url).length
          then loadBlurDataLocally stored url else extBd.getD [],
          decide ((extBd.getD []).length <
            (loadBlurDataLocally stored url).length),
          extStore)) := by
  constructor
  · rintro l rfl rfl hne
    simp [loadBlurData, List.length_pos.2 hne]
  · rintro extBd hfb rfl
    have hfall : loadBlurData isAuth fb (some extBd) stored url extStore =
        loadFallback (some extBd) stored url extStore := by
      rcases hfb with rfl | rfl | rfl
      · simp [loadBlurData]
      · simp [loadBlurData]
      · cases isAuth <;> simp [loadBlurData]
    rw [hfall]
    rcases stored with _ | ⟨rurl, rbd, rts⟩
    · simp [loadFallback, syncLocalDataIfNeeded, loadBlurDataLocally]
    · have htsr : rts ≠ 0 := hts ⟨rurl, rbd, rts⟩ rfl
      rcases rbd with _ | bd
      · simp [loadFallback, syncLocalDataIfNeeded, loadBlurDataLocally]
      · by_cases hurl : rurl = url
        · subst hurl
          rcases eq_or_ne bd [] with rfl | hbd
          · simp [loadFallback, syncLocalDataIfNeeded, loadBlurDataLocally]
          · have hlen : bd.length ≠ 0 := fun h =>
              hbd (List.length_eq_zero.mp h)
            by_cases hlt : (extBd.getD []).length < bd.length <;>
              simp [loadFallback, syncLocalDataIfNeeded,
                backgroundSaveBlurData, loadBlurDataLocally, hlen, htsr,
                hlt]
        · simp [loadFallback, syncLocalDataIfNeeded, loadBlurDataLocally,
            hurl]

/-- Witness for `loadBlurData_reconciliation_amended`: unauthenticated
load where the extension store returns one mark and the local cache holds
two. -/
theorem loadBlurData_reconciliation_amended_witness :
    (∀ l, false = true →
      (none : Option (List BlurData)) = some l → l ≠ [] →
      loadBlurData false none
          (some (some [mkElementBlur "#a" 1]))
          (some (saveBlurDataLocally "u"
            [mkElementBlur "#a" 1, mkTextBlur "#t" "x" 2] 9)) "u"
          (fun _ => []) =
        (l, false, fun _ => [])) ∧
    (∀ extBd,
      (false = false ∨ (none : Option (List BlurData)) = none ∨
        (none : Option (List BlurData)) = some []) →
      (some (some [mkElementBlur "#a" 1]) :
          Option (Option (List BlurData))) = some extBd →
      loadBlurData false none (some (some [mkElementBlur "#a" 1]))
          (some (saveBlurDataLocally "u"
            [mkElementBlur "#a" 1, mkTextBlur "#t" "x" 2] 9)) "u"
          (fun _ => []) =
        (if (extBd.getD []).length <
            (loadBlurDataLocally
              (some (saveBlurDataLocally "u"
                [mkElementBlur "#a" 1, mkTextBlur "#t" "x" 2] 9)) "u").length
          then loadBlurDataLocally
            (some (saveBlurDataLocally "u"
              [mkElementBlur "#a" 1, mkTextBlur "#t" "x" 2] 9)) "u"
          else extBd.getD [],
          decide ((extBd.getD []).length <
            (loadBlurDataLocally
              (some (saveBlurDataLocally "u"
                [mkElementBlur "#a" 1, mkTextBlur "#t" "x" 2] 9))
              "u").length),
          fun _ => [])) :=
  loadBlurData_reconciliation_amended false none
    (some (some [mkElementBlur "#a" 1]))
    (some (saveBlurDataLocally "u"
      [mkElementBlur "#a" 1, mkTextBlur "#t" "x" 2] 9)) "u" (fun _ => [])
    (by intro r hr; cases hr; decide)

/-! ## Interaction mode machine (`setExclusiveMode`, toolbar clicks, and
the `toggleDrawMode` / `toggleEraserMode` message handlers) -/

/-- The mode-relevant fields of the content-script object: the enabled
switch and the four gesture-mode booleans. -/
structure ModeState where
  isEnabled : Bool
  isBlurMode : Bool
  isDrawingMode : Bool
  isTextSelectionMode : Bool
  isEraserMode : Bool
deriving DecidableEq, Repr

/-- The mode argument of `setExclusiveMode`:
`"blur" | "draw" | "text" | "eraser" | "none"`. -/
inductive Mode where
  | blur
  | draw
  | text
  | eraser
  | off
deriving DecidableEq, Repr

/-- `setExclusiveMode`: when the extension is disabled only `"none"` is
allowed (early return otherwise); all four mode flags are cleared first and
then exactly the requested one is set. -/
def setExclusiveMode (s : ModeState) (mode : Mode) : ModeState :=
  if s.isEnabled = false ∧ mode ≠ .off then s
  else
    let s0 := { s with isBlurMode := false, isDrawingMode := false,
                       isTextSelectionMode := false, isEraserMode := false }
    match mode with
    | .blur => { s0 with isBlurMode := true }
    | .draw => { s0 with isDrawingMode := true }
    | .text => { s0 with isTextSelectionMode := true }
    | .eraser => { s0 with isEraserMode := true }
    | .off => s0

/-- A mode-changing operation: a direct `setExclusiveMode` request, one of
the four toolbar button clicks (which toggle via `setExclusiveMode`), or
the `toggleDrawMode` / `toggleEraserMode` message handlers (which flip
their flag directly, guarded only by `isEnabled`). -/
inductive ModeOp where
  | setMode (m : Mode)
  | toolbarBlurClick
  | toolbarDrawClick
  | toolbarTextClick
  | toolbarEraserClick
  | msgToggleDrawMode
  | msgToggleEraserMode
deriving DecidableEq, Repr

/-- One step of the mode machine, per the corresponding source handler. -/
def applyModeOp (s : ModeState) : ModeOp → ModeState
  | .setMode m => setExclusiveMode s m
  | .toolbarBlurClick =>
    if s.isBlurMode then setExclusiveMode s .off
    else setExclusiveMode s .blur
  | .toolbarDrawClick =>
    if s.isDrawingMode then setExclusiveMode s .off
    else setExclusiveMode s .draw
  | .toolbarTextClick =>
    if s.isTextSelectionMode then setExclusiveMode s .off
    else setExclusiveMode s .text
  | .toolbarEraserClick =>
    if s.isEraserMode then setExclusiveMode s .off
    else setExclusiveMode s .eraser
  | .msgToggleDrawMode =>
    if s.isEnabled then { s with isDrawingMode := !s.isDrawingMode } else s
  | .msgToggleEraserMode =>
    if s.isEnabled then { s with isEraserMode := !s.isEraserMode } else s

/-- Run a sequence of mode-changing operations. -/
def runModeOps (s : ModeState) (ops : List ModeOp) : ModeState :=
  ops.foldl applyModeOp s

/-- Number of simultaneously active gesture modes. -/
def activeModeCount (s : ModeState) : Nat :=
  (cond s.isBlurMode 1 0) + (cond s.isDrawingMode 1 0) +
    (cond s.isTextSelectionMode 1 0) + (cond s.isEraserMode 1 0)

/-- The exclusivity invariant: at most one gesture mode active. -/
def atMostOneMode (s : ModeState) : Bool :=
  decide (activeModeCount s ≤ 1)

/-- The initial mode state after `init` on an enabled extension
(`setExclusiveMode("blur")` from all-cleared flags). -/
def initEnabledModeState : ModeState :=
  setExclusiveMode
    { isEnabled := true, isBlurMode := false, isDrawingMode := false,
      isTextSelectionMode := false, isEraserMode := false } .blur

/-- An operation that routes through `setExclusiveMode` (a direct mode-set
request or a toolbar click), as opposed to the direct-flip message
handlers. -/
def opIsExclusive : ModeOp → Bool
  | .setMode _ => true
  | .toolbarBlurClick => true
  | .toolbarDrawClick => true
  | .toolbarTextClick => true
  | .toolbarEraserClick => true
  | .msgToggleDrawMode => false
  | .msgToggleEraserMode => false

/-- C2 counterexample: from the reachable enabled blur-mode state, a single
`toggleDrawMode` message leaves both `isBlurMode` and `isDrawingMode` set,
so the four gesture modes are not mutually exclusive under the message
handlers and the claimed invariant fails. -/
theorem modeExclusivity_counterexample :
    (runModeOps initEnabledModeState [.msgToggleDrawMode]).isBlurMode =
        true ∧
    (runModeOps initEnabledModeState [.msgToggleDrawMode]).isDrawingMode =
        true ∧
    activeModeCount (runModeOps initEnabledModeState
      [.msgToggleDrawMode]) = 2 ∧
    atMostOneMode (runModeOps initEnabledModeState
      [.msgToggleDrawMode]) = false := by
  decide

/-- C2 amended: every operation that routes through `setExclusiveMode`
(direct mode-set requests and the four toolbar clicks) preserves the
at-most-one-active-mode invariant over any operation sequence; only the
`toggleDrawMode` / `toggleEraserMode` message handlers can break it. -/
theorem modeExclusivity_exclusive_ops (s : ModeState) (ops : List ModeOp)
    (hops : ∀ op ∈ ops, opIsExclusive op = true)
    (hs : atMostOneMode s = true) :
    atMostOneMode (runModeOps s ops) = true := by
  induction ops generalizing s with
  | nil => exact hs
  | cons op rest ih =>
    have hop : opIsExclusive op = true := hops op (by simp)
    have hrest : ∀ o ∈ rest, opIsExclusive o = true := fun o ho =>
      hops o (by simp [ho])
    refine ih (applyModeOp s op) hrest ?_
    have hset : ∀ m, atMostOneMode (setExclusiveMode s m) = true := by
      intro m
      unfold setExclusiveMode
      split
      · exact hs
      · cases m <;> simp [atMostOneMode, activeModeCount]
    cases op with
    | setMode m => exact hset m
    | toolbarBlurClick =>
      by_cases h : s.isBlurMode = true <;>
        simp [applyModeOp, h, hset]
    | toolbarDrawClick =>
      by_cases h : s.isDrawingMode = true <;>
        simp [applyModeOp, h, hset]
    | toolbarTextClick =>
      by_cases h : s.isTextSelectionMode = true <;>
        simp [applyModeOp, h, hset]
    | toolbarEraserClick =>
      by_cases h : s.isEraserMode = true <;>
        simp [applyModeOp, h, hset]
    | msgToggleDrawMode => exact absurd hop (by simp [opIsExclusive])
    | msgToggleEraserMode => exact absurd hop (by simp [opIsExclusive])

/-- Witness for `modeExclusivity_exclusive_ops`: a toolbar round trip from
the initial enabled state. -/
theorem modeExclusivity_exclusive_ops_witness :
    atMostOneMode (runModeOps initEnabledModeState
      [.toolbarDrawClick, .setMode .eraser, .toolbarEraserClick]) = true :=
  modeExclusivity_exclusive_ops initEnabledModeState
    [.toolbarDrawClick, .setMode .eraser, .toolbarEraserClick]
    (by decide) (by decide)

/-! ## Effect applier (`applyBlurToElement` / `applyBlurWithFallbacks` /
`applyBlurWithWrapper` / `removeBlurFromElement`)

The element's style is modelled by the fields the code reads and writes:
the `filter` value as a list of filter components, the `!important`
override flags set by removal, the class list, and the marker attributes.
A wrapper created by the method-4 fallback is prepended to `wrappers`
(each entry is the wrapper's `backdrop-filter` component list; the wrapper
also carries the class `blur-anything-wrapper`). -/

/-- One component of a CSS `filter` value. -/
inductive Filt where
  | blurPx (px : Int)
  | noneKw
  | other (s : String)
deriving DecidableEq, Repr

/-- Whether a filter value contains a blur component. -/
def hasBlurComp (l : List Filt) : Bool :=
  l.any fun f => match f with | .blurPx _ => true | _ => false

/-- The element state touched by the effect applier. -/
structure ElemState where
  filter : List Filt
  filterImportant : Bool
  backdropFilter : List Filt
  backdropImportant : Bool
  opacity : Option String
  opacityImportant : Bool
  classes : List String
  dataBlurApplied : Bool
  dataBlurId : Option String
deriving DecidableEq, Repr

/-- The element together with any wrapper containers the method-4 fallback
has wrapped it in (innermost first; each entry is the wrapper's
`backdrop-filter` value). -/
structure PageElem where
  el : ElemState
  wrappers : List (List Filt)
deriving DecidableEq, Repr

/-- Which of the DOM mutation attempts succeed; the source wraps each
method in try/catch, so failure of any method is an anticipated outcome.
`canApply` models `canApplyBlurToElement`. -/
structure ApplyEnv where
  canApply : Bool
  m1ok : Bool
  m2ok : Bool
  m3ok : Bool
deriving DecidableEq, Repr

/-- `classList.add`: appends the class if absent. -/
def addClass (c : String) (l : List String) : List String :=
  if c ∈ l then l else l ++ [c]

/-- `applyBlurWithFallbacks`: method 1 (direct `style.filter` assignment)
and method 2 (`setProperty`) both strip any existing blur component and
append a fresh one; method 3 (`setAttribute("style", ...)`) strips every
declaration containing "filter:" (which also hits backdrop-filter) and
writes a lone blur filter; method 4 wraps the element in a container
carrying a backdrop-filter blur. -/
def applyBlurWithFallbacks (env : ApplyEnv) (i : Int) (p : PageElem) :
    PageElem :=
  if env.m1ok ∨ env.m2ok then
    { p with el := { p.el with
        filter := (p.el.filter.filter fun f =>
          match f with | .blurPx _ => false | _ => true) ++ [.blurPx i] } }
  else if env.m3ok then
    { p with el := { p.el with
        filter := [.blurPx i], filterImportant := false,
        backdropFilter := [], backdropImportant := false } }
  else
    { p with wrappers := [.blurPx i] :: p.wrappers }

/-- `applyBlurToElement`: validates the element (throwing, i.e. mutating
nothing, when `canApplyBlurToElement` fails), runs the fallback chain, and
then adds the marker class and the `data-blur-applied` attribute. -/
def applyBlurToElement (env : ApplyEnv) (i : Int) (p : PageElem) :
    PageElem :=
  if env.canApply = false then p
  else
    let p1 := applyBlurWithFallbacks env i p
    { p1 with el := { p1.el with
        classes := addClass "blur-anything-blurred" p1.el.classes,
        dataBlurApplied := true } }

/-- `removeBlurFromElement`: clears the inline filter through all three
direct methods, strips the marker classes and attributes, and then
re-affirms a neutral state with `!important` overrides that are kept
permanently.  The wrapper containers of the method-4 fallback are not
touched. -/
def removeBlurFromElement (p : PageElem) : PageElem :=
  let e := p.el
  let e := { e with filter := [], filterImportant := false }
  let e := { e with
      classes := e.classes.filter
        fun c => c ≠ "blur-anything-blurred" ∧ c ≠ "blur-anything-text-blur",
      dataBlurApplied := false, dataBlurId := none }
  let e := { e with
      filter := [.noneKw], filterImportant := true,
      backdropFilter := [.noneKw], backdropImportant := true,
      opacity := some "1", opacityImportant := true }
  { p with el := e }

/-- Residue introduced by the applier: the applied blur filter, the marker
class, the marker attribute, or a wrapper container. -/
def applyResidue (p : PageElem) : Bool :=
  hasBlurComp p.el.filter || p.el.classes.contains "blur-anything-blurred" ||
    p.el.dataBlurApplied || !p.wrappers.isEmpty

/-- A pristine element with no styles, classes or wrappers. -/
def cleanElem : PageElem :=
  { el := { filter := [], filterImportant := false, backdropFilter := [],
            backdropImportant := false, opacity := none,
            opacityImportant := false, classes := [],
            dataBlurApplied := false, dataBlurId := none },
    wrappers := [] }

/-- C3 counterexample: when the three direct style-mutation methods fail
and `apply` succeeds through the method-4 wrapper (the fallback the code
itself provides for), `removeBlurFromElement` leaves the wrapper — residue
introduced by `apply` — in place, and the wrapper still carries the
obscuring backdrop-filter, so the effect is not fully cleared. -/
theorem removeBlur_counterexample :
    applyResidue (removeBlurFromElement (applyBlurToElement
      { canApply := true, m1ok := false, m2ok := false, m3ok := false } 10
      cleanElem)) = true ∧
    (removeBlurFromElement (applyBlurToElement
      { canApply := true, m1ok := false, m2ok := false, m3ok := false } 10
      cleanElem)).wrappers = [[.blurPx 10]] := by
  decide

/-- C3 amended: after any number of `apply` calls that each succeed through
one of the three direct style-mutation methods (so no wrapper is created),
`removeBlurFromElement` clears everything `apply` added — no blur filter
component, no marker class, no marker attribute, no wrapper; the wrapper
container created by the method-4 fallback, however, is never removed. -/
theorem removeBlur_clears_direct_methods (env : ApplyEnv)
    (intensities : List Int) (p0 : PageElem)
    (hdirect : env.m1ok = true ∨ env.m2ok = true ∨ env.m3ok = true)
    (hw : p0.wrappers = []) :
    applyResidue (removeBlurFromElement
      (intensities.foldl (fun s i => applyBlurToElement env i s) p0)) =
        false := by
  have hwrap : ∀ (is : List Int) (q : PageElem), q.wrappers = [] →
      (is.foldl (fun s i => applyBlurToElement env i s) q).wrappers = [] := by
    intro is
    induction is with
    | nil => intro q hq; exact hq
    | cons i rest ih =>
      intro q hq
      refine ih _ ?_
      unfold applyBlurToElement applyBlurWithFallbacks
      rcases hdirect with h | h | h
      · by_cases hca : env.canApply = false <;> simp [hca, h, hq]
      · by_cases hca : env.canApply = false <;> simp [hca, h, hq]
      · by_cases hca : env.canApply = false <;>
          by_cases h12 : env.m1ok = true ∨ env.m2ok = true <;>
            simp [hca, h, h12, hq]
  have hfin := hwrap intensities p0 hw
  unfold removeBlurFromElement applyResidue
  simp [hasBlurComp, hfin]

/-- Witness for `removeBlur_clears_direct_methods`: two applies through
method 1 on a clean element, then remove. -/
theorem removeBlur_clears_direct_methods_witness :
    applyResidue (removeBlurFromElement
      (([3, 7] : List Int).foldl
        (fun s i => applyBlurToElement
          { canApply := true, m1ok := true, m2ok := true, m3ok := false }
          i s) cleanElem)) = false :=
  removeBlur_clears_direct_methods
    { canApply := true, m1ok := true, m2ok := true, m3ok := false }
    [3, 7] cleanElem (Or.inl rfl) rfl

/-! ## Restoration pass cleanup queue (`applyExistingBlurs` /
`markBlurForCleanup` / `performBlurCleanup`)

During the scan, `applyExistingBlurs` never mutates the store; it only
calls `markBlurForCleanup(index)` for marks it detects as unresolvable, and
flushes the queue once at the end via `performBlurCleanup`.  Whether a mark
is detected as unresolvable depends on the document, abstracted here by the
oracle `dead : Nat → BlurData → Bool` on the scanned index and mark. -/

/-- `markBlurForCleanup`: queue an index, deduplicating. -/
def markBlurForCleanup (blursToCleanup : List Nat) (index : Nat) :
    List Nat :=
  if index ∈ blursToCleanup then blursToCleanup else blursToCleanup ++ [index]

/-- One `splice(index, 1)` step of the cleanup flush, counting actual
removals. -/
def spliceStep {α : Type _} (acc : List α × Nat) (i : Nat) : List α × Nat :=
  if i < acc.1.length then (acc.1.eraseIdx i, acc.2 + 1) else acc

/-- `performBlurCleanup`: nothing to do on an empty queue; otherwise sort
the queued indices in descending order (so removal does not shift the
positions still to be removed), splice each, clear the queue, and persist
exactly when something was removed.  Returns (new store, new queue,
persisted). -/
def performBlurCleanup (store : List BlurData) (q : List Nat) :
    List BlurData × List Nat × Bool :=
  if q = [] then (store, [], false)
  else
    let sorted := q.mergeSort fun a b => decide (b ≤ a)
    let res := sorted.foldl spliceStep (store, 0)
    (res.1, [], decide (0 < res.2))

/-- The queue accumulated by one `applyExistingBlurs` scan: the store is
read in order (a snapshot — the `forEach` body never mutates
`blurredElements`) and each index whose mark is detected unresolvable is
queued. -/
def scanQueue (store : List BlurData) (dead : Nat → BlurData → Bool) :
    List Nat :=
  store.enum.foldl
    (fun q im => if dead im.1 im.2 then markBlurForCleanup q im.1 else q) []

/-- The store/queue behaviour of one `applyExistingBlurs` pass: early
return on an empty store, otherwise scan (queueing only) and then flush the
queue exactly once at the end.  Returns the final store and whether it was
persisted. -/
def applyExistingBlurs (store : List BlurData)
    (dead : Nat → BlurData → Bool) : List BlurData × Bool :=
  if store.isEmpty then (store, false)
  else
    let r := performBlurCleanup store (scanQueue store dead)
    (r.1, r.2.2)

/-- Remove from `l` the elements whose position (counting from `k`) is in
`q` — the specification of a stable, snapshot-indexed removal. -/
def dropIndices {α : Type _} : List α → List Nat → Nat → List α
  | [], _, _ => []
  | a :: as, q, k =>
    if k ∈ q then dropIndices as q (k + 1) else a :: dropIndices as q (k + 1)

theorem dropIndices_of_lt {α : Type _} (l : List α) (q : List Nat) (k : Nat)
    (h : ∀ j ∈ q, j < k) : dropIndices l q k = l := by
  induction l generalizing k with
  | nil => rfl
  | cons a as ih =>
    unfold dropIndices
    rw [if_neg (fun hk => lt_irrefl k (h k hk))]
    rw [ih (k + 1) (fun j hj => Nat.lt_succ_of_lt (h j hj))]

theorem dropIndices_congr {α : Type _} (l : List α) (q q' : List Nat)
    (k : Nat) (h : ∀ j, j ∈ q ↔ j ∈ q') :
    dropIndices l q k = dropIndices l q' k := by
  induction l generalizing k with
  | nil => rfl
  | cons a as ih =>
    unfold dropIndices
    by_cases hk : k ∈ q
    · rw [if_pos hk, if_pos ((h k).mp hk), ih]
    · rw [if_neg hk, if_neg (fun hk' => hk ((h k).mpr hk')), ih]

theorem dropIndices_eraseIdx {α : Type _} (l : List α) (i : Nat)
    (rest : List Nat) (k : Nat) (hrest : ∀ j ∈ rest, j < i) (hk : k ≤ i)
    (hi : i - k < l.length) :
    dropIndices (l.eraseIdx (i - k)) rest k = dropIndices l (i :: rest) k := by
  induction l generalizing k with
  | nil => simp at hi
  | cons a as ih =>
    rcases Nat.eq_or_lt_of_le hk with rfl | hlt
    · rw [Nat.sub_self]
      show dropIndices as rest k = dropIndices (a :: as) (k :: rest) k
      rw [dropIndices_of_lt as rest k hrest]
      unfold dropIndices
      rw [if_pos (List.mem_cons_self k rest)]
      rw [dropIndices_of_lt as (k :: rest) (k + 1) (fun j hj => by
        rcases List.mem_cons.mp hj with rfl | hj
        · exact Nat.lt_succ_self j
        · exact Nat.lt_succ_of_lt (hrest j hj))]
    · have hsub : i - k = (i - (k + 1)) + 1 := by omega
      rw [hsub]
      show dropIndices (a :: as.eraseIdx (i - (k + 1))) rest k =
        dropIndices (a :: as) (i :: rest) k
      unfold dropIndices
      have hknotmem : (k ∈ i :: rest) ↔ (k ∈ rest) := by
        constructor
        · intro h
          rcases List.mem_cons.mp h with rfl | h
          · exact absurd hlt (lt_irrefl k)
          · exact h
        · exact fun h => List.mem_cons_of_mem i h
      have hih := ih (k + 1) hlt (by
        simp only [List.length_cons] at hi
        omega)
      by_cases hkr : k ∈ rest
      · rw [if_pos hkr, if_pos (hknotmem.mpr hkr), hih]
      · rw [if_neg hkr, if_neg (fun h => hkr (hknotmem.mp h)), hih]

theorem spliceFold_desc {α : Type _} (q : List Nat) (l : List α) (c : Nat)
    (hdesc : q.Pairwise fun a b => b < a) (hbound : ∀ j ∈ q, j < l.length) :
    q.foldl spliceStep (l, c) = (dropIndices l q 0, c + q.length) := by
  induction q generalizing l c with
  | nil => simp [dropIndices_of_lt l [] 0 (by simp)]
  | cons i rest ih =>
    have hi : i < l.length := hbound i (List.mem_cons_self i rest)
    have hrest : ∀ j ∈ rest, j < i :=
      fun j hj => (List.pairwise_cons.mp hdesc).1 j hj
    show rest.foldl spliceStep (spliceStep (l, c) i) = _
    rw [show spliceStep (l, c) i = (l.eraseIdx i, c + 1) from by
      unfold spliceStep; rw [if_pos hi]]
    rw [ih (l.eraseIdx i) (c + 1) (List.pairwise_cons.mp hdesc).2
      (fun j hj => by
        rw [List.length_eraseIdx_of_lt hi]
        have := hrest j hj
        omega)]
    have herase := dropIndices_eraseIdx l i rest 0 hrest (Nat.zero_le i)
      (by simpa using hi)
    rw [Nat.sub_zero] at herase
    rw [herase]
    simp only [List.length_cons]
    congr 1
    omega

theorem scanFold_eq_filter (dead : Nat → BlurData → Bool)
    (l : List BlurData) (n : Nat) (acc : List Nat)
    (hacc : ∀ j ∈ acc, j < n) :
    (List.enumFrom n l).foldl
        (fun q im => if dead im.1 im.2 then markBlurForCleanup q im.1 else q)
        acc =
      acc ++ ((List.enumFrom n l).filter
        fun im => dead im.1 im.2).map Prod.fst := by
  induction l generalizing n acc with
  | nil => simp
  | cons a as ih =>
    show (List.enumFrom (n + 1) as).foldl _
        (if dead n a then markBlurForCleanup acc n else acc) = _
    by_cases hd : dead n a
    · have hnot : n ∉ acc := fun h => lt_irrefl n (hacc n h)
      rw [if_pos hd,
        show markBlurForCleanup acc n = acc ++ [n] from by
          unfold markBlurForCleanup; rw [if_neg hnot]]
      rw [ih (n + 1) (acc ++ [n]) (fun j hj => by
        rcases List.mem_append.mp hj with hj | hj
        · exact Nat.lt_succ_of_lt (hacc j hj)
        · simp at hj; omega)]
      simp [hd, List.append_assoc]
    · rw [if_neg hd]
      rw [ih (n + 1) acc (fun j hj => Nat.lt_succ_of_lt (hacc j hj))]
      simp [hd]

theorem scanQueue_eq_filter (store : List BlurData)
    (dead : Nat → BlurData → Bool) :
    scanQueue store dead =
      (store.enum.filter fun im => dead im.1 im.2).map Prod.fst := by
  unfold scanQueue
  rw [List.enum]
  exact scanFold_eq_filter dead store 0 [] (by simp)

theorem enumFrom_filter_fst_bounds {p : Nat × BlurData → Bool}
    (l : List BlurData) (n j : Nat)
    (hj : j ∈ ((List.enumFrom n l).filter p).map Prod.fst) :
    n ≤ j ∧ j < n + l.length := by
  induction l generalizing n with
  | nil => simp at hj
  | cons a as ih =>
    obtain ⟨x, hx, hfst⟩ := List.mem_map.mp hj
    have hx1 := (List.mem_filter.mp hx).1
    have hx2 := (List.mem_filter.mp hx).2
    rw [List.enumFrom] at hx1
    simp only [List.length_cons]
    rcases List.mem_cons.mp hx1 with rfl | hmem
    · obtain rfl : n = j := hfst
      omega
    · have hrec := ih (n + 1) (List.mem_map.mpr
        ⟨x, List.mem_filter.mpr ⟨hmem, hx2⟩, hfst⟩)
      omega

theorem enumFrom_filter_fst_ascending {p : Nat × BlurData → Bool}
    (l : List BlurData) (n : Nat) :
    (((List.enumFrom n l).filter p).map Prod.fst).Pairwise (· < ·) := by
  induction l generalizing n with
  | nil => simp
  | cons a as ih =>
    rw [List.enumFrom, List.filter_cons]
    by_cases hp : p (n, a)
    · rw [if_pos hp, List.map_cons]
      refine List.pairwise_cons.mpr ⟨fun j hj => ?_, ih (n + 1)⟩
      have := (enumFrom_filter_fst_bounds as (n + 1) j hj).1
      omega
    · rw [if_neg hp]
      exact ih (n + 1)

theorem mergeSort_desc_of_ascending (q : List Nat)
    (hasc : q.Pairwise (· < ·)) :
    q.mergeSort (fun a b => decide (b ≤ a)) = q.reverse := by
  haveI : IsAntisymm Nat fun a b : Nat => b ≤ a :=
    ⟨fun a b h1 h2 => le_antisymm h2 h1⟩
  have hs1 : List.Sorted (fun a b : Nat => b ≤ a)
      (q.mergeSort fun a b : Nat => decide (b ≤ a)) := by
    have hs : (q.mergeSort fun a b : Nat => decide (b ≤ a)).Pairwise
        (fun a b : Nat => decide (b ≤ a) = true) := by
      refine List.sorted_mergeSort ?_ ?_ q
      · intro a b c hab hbc
        simp only [decide_eq_true_eq] at *
        omega
      · intro a b
        rcases le_total b a with h | h <;> simp [h]
    exact hs.imp fun h => of_decide_eq_true h
  have hs2 : List.Sorted (fun a b : Nat => b ≤ a) q.reverse := by
    have hp : q.reverse.Pairwise (fun a b : Nat => b ≤ a) := by
      rw [List.pairwise_reverse]
      exact hasc.imp fun h => le_of_lt h
    exact hp
  exact List.eq_of_perm_of_sorted
    ((List.mergeSort_perm q _).trans q.reverse_perm.symm) hs1 hs2

theorem performBlurCleanup_desc (store : List BlurData) (q : List Nat)
    (hasc : q.Pairwise (· < ·)) (hbound : ∀ j ∈ q, j < store.length) :
    performBlurCleanup store q =
      (dropIndices store q 0, [], decide (q ≠ [])) := by
  by_cases hq : q = []
  · subst hq
    rw [dropIndices_of_lt store [] 0 (by simp)]
    simp [performBlurCleanup]
  · have hfold : ((q.mergeSort fun a b => decide (b ≤ a)).foldl spliceStep
        (store, 0)) = (dropIndices store q 0, 0 + q.length) := by
      rw [mergeSort_desc_of_ascending q hasc]
      rw [spliceFold_desc q.reverse store 0
        (by rw [List.pairwise_reverse]; exact hasc.imp fun h => h)
        (fun j hj => hbound j (List.mem_reverse.mp hj))]
      rw [dropIndices_congr store q.reverse q 0 (fun j => List.mem_reverse),
        List.length_reverse]
    have hlen : 0 < q.length := List.length_pos.mpr hq
    unfold performBlurCleanup
    rw [if_neg hq]
    show (((q.mergeSort fun a b => decide (b ≤ a)).foldl spliceStep
        (store, 0)).1, ([] : List Nat),
        decide (0 < ((q.mergeSort fun a b => decide (b ≤ a)).foldl
          spliceStep (store, 0)).2)) =
      (dropIndices store q 0, [], decide (q ≠ []))
    rw [hfold]
    simp [hq, hlen]

/-- C6: one `applyExistingBlurs` pass removes exactly the marks whose
snapshot index was queued during the scan (the store is only read during
the scan and the queue is flushed once at the end, with indices spliced in
descending order so each splice hits the original snapshot position), and
the store is persisted exactly when the queue was non-empty. -/
theorem applyExistingBlurs_queue_flush (store : List BlurData)
    (dead : Nat → BlurData → Bool) :
    applyExistingBlurs store dead =
      (dropIndices store (scanQueue store dead) 0,
        decide (scanQueue store dead ≠ [])) := by
  have hasc : (scanQueue store dead).Pairwise (· < ·) := by
    rw [scanQueue_eq_filter, List.enum]
    exact enumFrom_filter_fst_ascending store 0
  have hbound : ∀ j ∈ scanQueue store dead, j < store.length := by
    intro j hj
    rw [scanQueue_eq_filter, List.enum] at hj
    have := (enumFrom_filter_fst_bounds store 0 j hj).2
    omega
  unfold applyExistingBlurs
  by_cases hemp : store.isEmpty
  · rw [if_pos hemp]
    rw [List.isEmpty_iff] at hemp
    subst hemp
    rfl
  · rw [if_neg hemp]
    rw [performBlurCleanup_desc store (scanQueue store dead) hasc hbound]

/-! ## Restoration never re-applies an applied effect (`applyExistingBlurs`
per-mark branches, `findAndBlurTextContent`, `restoreTextBlurBySelector`)

The per-mark document state carries exactly what each branch inspects: the
resolved element for a point mark, the list of region overlays (their
`data-coords` attribute and whether their `backdrop-filter` contains a
blur), the element the text mark's stored selector resolves to, and the
text-bearing leaves scanned by `findAndBlurTextContent` (whether each
contains the stored literal and whether it sits inside a synthetic mark
container or control-surface subtree). -/

/-- A region overlay node: its `data-coords` attribute, whether its inline
`backdrop-filter` contains a blur, and whether its background tint is set. -/
structure RegionOverlay where
  coords : String
  backdropBlur : Bool
  background : Bool
deriving DecidableEq, Repr

/-- The element a text mark's stored selector resolves to. -/
structure TextSpan where
  classes : List String
  filter : List Filt
  transition : Bool
  cursor : Bool
deriving DecidableEq, Repr

/-- A text-bearing leaf visited by the `findAndBlurTextContent` tree walk:
whether its content contains the stored literal text, and whether it sits
inside a synthetic mark container (`blur-anything-text-blur` parent, a
`blur-anything-` id, or the floating toolbar), which the walker rejects. -/
structure TextLeaf where
  containsTarget : Bool
  inMarkContainer : Bool
deriving DecidableEq, Repr

/-- Per-mark document state for one restoration branch. -/
structure DocState where
  pointTarget : Option PageElem
  overlays : List RegionOverlay
  textTarget : Option TextSpan
  leaves : List TextLeaf
deriving DecidableEq, Repr

/-- The `data-coords` attribute value for a region mark. -/
def coordsString (c : Coords) : String :=
  toString c.x ++ "," ++ toString c.y

/-- `areValidCoordinates`: width/height positive, origin non-negative. -/
def areValidCoordinates (c : Coords) : Bool :=
  decide (0 < c.width) && decide (0 < c.height) &&
    decide (0 ≤ c.x) && decide (0 ≤ c.y)

/-- `createProperBlurOverlay`: sets the backdrop-filter blur and the
background tint on the overlay. -/
def createProperBlurOverlay (ov : RegionOverlay) : RegionOverlay :=
  { ov with backdropBlur := true, background := true }

/-- `recreateBlurArea`: creates the overlay, sets `data-coords`, applies
`createProperBlurOverlay`, and then assigns `style.cssText` — which
replaces the whole inline style, dropping the backdrop-filter and
background just set. -/
def recreateBlurArea (c : Coords) : RegionOverlay :=
  let ov : RegionOverlay :=
    { coords := coordsString c, backdropBlur := false, background := false }
  let ov := createProperBlurOverlay ov
  { ov with backdropBlur := false, background := false }

/-- Replace the first overlay with the given `data-coords` value. -/
def updateFirstMatch (s : String) (f : RegionOverlay → RegionOverlay) :
    List RegionOverlay → List RegionOverlay
  | [] => []
  | ov :: rest =>
    if ov.coords = s then f ov :: rest
    else ov :: updateFirstMatch s f rest

/-- The area branch of `applyExistingBlurs`: validate coordinates, look for
an existing overlay with the exact `data-coords`; recreate when absent,
re-affirm the blur only when the existing overlay's backdrop-filter lacks
it, and do nothing when the blur is present. -/
def restoreRegionStep (c : Coords) (overlays : List RegionOverlay) :
    List RegionOverlay :=
  if !areValidCoordinates c then overlays
  else
    match overlays.find? (fun ov => ov.coords = coordsString c) with
    | none => overlays ++ [recreateBlurArea c]
    | some ov =>
      if ov.backdropBlur then overlays
      else updateFirstMatch (coordsString c) createProperBlurOverlay overlays

/-- The element branch of `applyExistingBlurs` after resolution: skip when
the element failed validation, skip when the `blur-anything-blurred`
marker class is already present, otherwise apply. -/
def restoreElementStep (env : ApplyEnv) (i : Int) (d : DocState) :
    DocState :=
  match d.pointTarget with
  | none => d
  | some p =>
    if env.canApply = false then d
    else if p.el.classes.contains "blur-anything-blurred" then d
    else { d with pointTarget := some (applyBlurToElement env i p) }

/-- `restoreTextBlurBySelector` on a resolved element: when the element
already carries the `blur-anything-text-blur` class only the filter,
transition and cursor are re-set; otherwise the class is added along with
them. -/
def restoreTextSpan (i : Int) (sp : TextSpan) : TextSpan :=
  if sp.classes.contains "blur-anything-text-blur" then
    { sp with filter := [.blurPx i], transition := true, cursor := true }
  else
    { sp with
      classes := addClass "blur-anything-text-blur" sp.classes,
      filter := [.blurPx i], transition := true, cursor := true }

/-- `findAndBlurTextContent`: rejected outright when the stored text is
missing or shorter than 2 characters after trimming (`tlenOk = false`);
otherwise the tree walk returns the first leaf that contains the literal
and is not inside a mark container. -/
def findAndBlurTextContent (tlenOk : Bool) (leaves : List TextLeaf) :
    Option Nat :=
  if !tlenOk then none
  else (leaves.enum.find?
    fun il => !il.2.inMarkContainer && il.2.containsTarget).map Prod.fst

/-- Wrapping the found leaf in a `blur-anything-text-blur` span puts it
inside a mark container. -/
def wrapLeaf (idx : Nat) (leaves : List TextLeaf) : List TextLeaf :=
  leaves.enum.map fun jl =>
    if jl.1 = idx then { jl.2 with inMarkContainer := true } else jl.2

/-- One restoration attempt for one mark, per `applyExistingBlurs`. -/
def restoreMark (env : ApplyEnv) (i : Int) (m : BlurData) (tlenOk : Bool)
    (d : DocState) : DocState :=
  match m.type with
  | .element => restoreElementStep env i d
  | .area =>
    match m.coords with
    | none => d
    | some c => { d with overlays := restoreRegionStep c d.overlays }
  | .text =>
    match d.textTarget with
    | some sp => { d with textTarget := some (restoreTextSpan i sp) }
    | none =>
      match findAndBlurTextContent tlenOk d.leaves with
      | some idx => { d with leaves := wrapLeaf idx d.leaves }
      | none => d

/-- The mark's effect is present with its marker: the marker class for a
point mark, a `data-coords` overlay whose backdrop-filter carries the blur
for a region mark, and the wrapping span (with its restored styling) for a
text mark. -/
def alreadyApplied (i : Int) (m : BlurData) (d : DocState) : Bool :=
  match m.type with
  | .element =>
    match d.pointTarget with
    | some p => p.el.classes.contains "blur-anything-blurred"
    | none => false
  | .area =>
    match m.coords with
    | some c =>
      match d.overlays.find? (fun ov => ov.coords = coordsString c) with
      | some ov => ov.backdropBlur
      | none => false
    | none => false
  | .text =>
    match d.textTarget with
    | some sp =>
      sp.classes.contains "blur-anything-text-blur" &&
        decide (sp.filter = [Filt.blurPx i]) && sp.transition && sp.cursor
    | none => false

/-- C7: a restoration attempt on a mark whose effect is already applied
(its marker present) changes nothing — each branch checks the effect's
marker before re-applying — and the text scan only ever wraps a leaf that
is not inside an existing mark container. -/
theorem restore_checks_marker (env : ApplyEnv) (i : Int) (m : BlurData)
    (tlenOk : Bool) (d : DocState)
    (h : alreadyApplied i m d = true) :
    restoreMark env i m tlenOk d = d ∧
    (∀ tl (ls : List TextLeaf) idx, findAndBlurTextContent tl ls = some idx →
      ∃ l, ls.get? idx = some l ∧ l.inMarkContainer = false) := by
  constructor
  · obtain ⟨msel, mtype, mcoords, mtext, mts⟩ := m
    obtain ⟨pt, ovs, tt, lvs⟩ := d
    cases mtype with
    | element =>
      cases pt with
      | none => rfl
      | some p =>
        have hcls : p.el.classes.contains "blur-anything-blurred" = true := h
        simp only [restoreMark, restoreElementStep]
        by_cases hca : env.canApply = false
        · rw [if_pos hca]
        · rw [if_neg hca, if_pos hcls]
    | area =>
      cases mcoords with
      | none => rfl
      | some c =>
        simp only [alreadyApplied] at h
        match hfind : List.find? (fun ov => decide (ov.coords = coordsString c))
            ovs with
        | none => rw [hfind] at h; exact absurd h (by simp)
        | some ov =>
          rw [hfind] at h
          have hbd : ov.backdropBlur = true := h
          have hres : restoreRegionStep c ovs = ovs := by
            unfold restoreRegionStep
            by_cases hvalid : areValidCoordinates c = true
            · rw [if_neg (by simp [hvalid]), hfind]
              show (if ov.backdropBlur = true then ovs else
                updateFirstMatch (coordsString c) createProperBlurOverlay
                  ovs) = ovs
              rw [if_pos hbd]
            · rw [if_pos (by simp [hvalid])]
          simp [restoreMark, hres]
    | text =>
      cases tt with
      | none => simp [alreadyApplied] at h
      | some sp =>
        simp only [alreadyApplied, Bool.and_eq_true, decide_eq_true_eq] at h
        obtain ⟨⟨⟨hcls, hfil⟩, htr⟩, hcur⟩ := h
        have hspan : restoreTextSpan i sp = sp := by
          unfold restoreTextSpan
          rw [if_pos hcls]
          obtain ⟨cls, fil, tr, cur⟩ := sp
          simp_all
        simp [restoreMark, hspan]
  · intro tl ls idx hfind
    unfold findAndBlurTextContent at hfind
    by_cases htl : tl = false
    · rw [htl] at hfind; simp at hfind
    · rw [if_neg (by simp [Bool.not_eq_false] at htl; simp [htl])] at hfind
      obtain ⟨⟨j, l⟩, hmem, hfst⟩ := Option.map_eq_some'.mp hfind
      have hpred := List.find?_some hmem
      have hmem2 := List.mem_of_find?_eq_some hmem
      simp only [Bool.and_eq_true, Bool.not_eq_true'] at hpred
      refine ⟨l, ?_, hpred.1⟩
      have henum : ∀ (ls' : List TextLeaf) (n : Nat) (j' : Nat)
          (l' : TextLeaf), (j', l') ∈ List.enumFrom n ls' →
          n ≤ j' ∧ ls'.get? (j' - n) = some l' := by
        intro ls'
        induction ls' with
        | nil => intro n j' l' hm; simp at hm
        | cons a as ih =>
          intro n j' l' hm
          rw [List.enumFrom] at hm
          rcases List.mem_cons.mp hm with heq | hm2
          · injection heq with h1 h2
            subst h1
            subst h2
            exact ⟨le_refl _, by simp⟩
          · obtain ⟨h1, h2⟩ := ih (n + 1) j' l' hm2
            refine ⟨by omega, ?_⟩
            have hj : j' - n = (j' - (n + 1)) + 1 := by omega
            rw [hj]
            simpa using h2
      have hg := henum ls 0 j l (by rw [List.enum] at hmem2; exact hmem2)
      rw [← hfst]
      simpa using hg.2

/-- Witness for `restore_checks_marker`: an element mark whose resolved
target already carries the marker class. -/
theorem restore_checks_marker_witness :
    restoreMark { canApply := true, m1ok := true, m2ok := true, m3ok := true }
        4 (mkElementBlur "#w" 1) true
        { pointTarget := some { cleanElem with el :=
            { cleanElem.el with classes := ["blur-anything-blurred"] } },
          overlays := [], textTarget := none, leaves := [] } =
      { pointTarget := some { cleanElem with el :=
          { cleanElem.el with classes := ["blur-anything-blurred"] } },
        overlays := [], textTarget := none, leaves := [] } ∧
    (∀ tl (ls : List TextLeaf) idx, findAndBlurTextContent tl ls = some idx →
      ∃ l, ls.get? idx = some l ∧ l.inMarkContainer = false) :=
  restore_checks_marker
    { canApply := true, m1ok := true, m2ok := true, m3ok := true } 4
    (mkElementBlur "#w" 1) true
    { pointTarget := some { cleanElem with el :=
        { cleanElem.el with classes := ["blur-anything-blurred"] } },
      overlays := [], textTarget := none, leaves := [] }
    (by decide)

/-! ## Locator synthesis (`generateSelector`) over a document-tree model

The document is a tree of elements rooted at `document.body`; a node is
identified by its path of child indices from the root.  The selector
language models exactly what `generateSelector` emits: a single id
selector, a chain of `tag.classes:nth-child(k)` segments joined by the
child combinator, or an attribute selector on the imprinted
`data-blur-id` / `data-blur-fallback` marker.  `querySelector` returns the
first match in document (preorder) order. -/

/-- An element: lower-cased tag name, `element.id` (empty when absent), the
raw `class` attribute string, and the marker attributes the fallback can
imprint. -/
structure Elem where
  tagName : String
  idAttr : String
  className : String
  dataBlurId : Option String
  dataBlurFallback : Option String
deriving DecidableEq, Repr

/-- The document tree (root plays the role of `document.body`). -/
inductive Dom where
  | node (el : Elem) (children : List Dom)

/-- The element at the root of a subtree. -/
def rootElem : Dom → Elem
  | .node e _ => e

/-- The children of the root of a subtree. -/
def childrenOf : Dom → List Dom
  | .node _ cs => cs

/-- The subtree at a child-index path. -/
def subtreeAt (t : Dom) : List Nat → Option Dom
  | [] => some t
  | i :: rest =>
    match (childrenOf t)[i]? with
    | some c => subtreeAt c rest
    | none => none

/-- The element at a child-index path. -/
def elemAt (t : Dom) (p : List Nat) : Option Elem :=
  (subtreeAt t p).map rootElem

mutual

/-- All node paths of the tree in document (preorder) order. -/
def allPaths : Dom → List (List Nat)
  | .node _ cs => [] :: allPathsChildren cs 0

/-- Paths into the children starting at child index `i`. -/
def allPathsChildren : List Dom → Nat → List (List Nat)
  | [], _ => []
  | c :: cs, i =>
    (allPaths c).map (i :: ·) ++ allPathsChildren cs (i + 1)

end

/-- A character allowed in a CSS identifier (`[a-zA-Z0-9_-]`). -/
def isIdentChar (c : Char) : Bool :=
  c.isAlpha || c.isDigit || c = '_' || c = '-'

/-- A character allowed to start a CSS identifier (`[a-zA-Z_-]`). -/
def isIdentStart (c : Char) : Bool :=
  c.isAlpha || c = '_' || c = '-'

/-- `isValidCSSIdentifier`: the test
`/^[a-zA-Z_-][a-zA-Z0-9_-]*$/.test(str)`. -/
def isValidCSSIdentifier (s : String) : Bool :=
  match s.toList with
  | [] => false
  | c :: rest => isIdentStart c && rest.all isIdentChar

/-- `escapeCSSIdentifier`: `str.replace(/[^a-zA-Z0-9_-]/g, "\\$&")` —
prefix every character outside the identifier alphabet with a backslash. -/
def escapeCSSIdentifier (s : String) : String :=
  String.mk (s.toList.flatMap fun c =>
    if isIdentChar c then [c] else ['\\', c])

/-- Class-attribute tokens: `className.trim().split(/\s+/)` restricted to
space-separated class strings. -/
def splitWs (s : String) : List String :=
  (s.split (· = ' ')).filter (· ≠ "")

/-- One emitted chain segment: `tag`, up to three class tokens, and an
optional `:nth-child(k)`. -/
structure Seg where
  tag : String
  classes : List String
  nth : Option Nat
deriving DecidableEq, Repr

/-- A selector as emitted by `generateSelector`. -/
inductive Sel where
  | idSel (s : String)
  | chain (segs : List Seg)
  | attrHas (attr : String) (value : String)
deriving DecidableEq, Repr

/-- Whether the element at path `q` matches one segment: tag equality,
every listed class among the element's class tokens, and — for
`:nth-child(k)` — the element is the k-th child of its parent (1-based). -/
def matchesSeg (t : Dom) (q : List Nat) (seg : Seg) : Bool :=
  match elemAt t q with
  | none => false
  | some e =>
    decide (e.tagName = seg.tag) &&
      (seg.classes.all fun c => (splitWs e.className).contains c) &&
      (match seg.nth with
       | none => true
       | some k =>
         match q.getLast? with
         | some j => decide (j + 1 = k)
         | none => false)

/-- Chain matching with the segments reversed (deepest first): the path
matches the last segment and its parent matches the rest; the topmost
segment may sit at any depth. -/
def matchesChainRev (t : Dom) : List Nat → List Seg → Bool
  | _, [] => true
  | q, seg :: rest =>
    matchesSeg t q seg &&
      (match rest with
       | [] => true
       | _ :: _ =>
         match q with
         | [] => false
         | _ :: _ => matchesChainRev t q.dropLast rest)

/-- `querySelectorAll` for the emitted selector forms, in document order.
An empty chain models an empty selector string, which throws — the callers
treat that as no match. -/
def queryAll (t : Dom) (sel : Sel) : List (List Nat) :=
  match sel with
  | .idSel s =>
    (allPaths t).filter fun q =>
      match elemAt t q with
      | some e => decide (e.idAttr = s)
      | none => false
  | .chain segs =>
    if segs.isEmpty then []
    else (allPaths t).filter fun q => matchesChainRev t q segs.reverse
  | .attrHas a v =>
    (allPaths t).filter fun q =>
      match elemAt t q with
      | some e =>
        if a = "data-blur-id" then decide (e.dataBlurId = some v)
        else if a = "data-blur-fallback" then
          decide (e.dataBlurFallback = some v)
        else false
      | none => false

/-- `querySelector`: first match in document order. -/
def querySelector (t : Dom) (sel : Sel) : Option (List Nat) :=
  (queryAll t sel).head?

/-- The first element in document order whose id equals `s`. -/
def firstWithId (t : Dom) (s : String) : Option (List Nat) :=
  (allPaths t).find? fun q =>
    match elemAt t q with
    | some e => decide (e.idAttr = s)
    | none => false

/-- `shouldAddNthChild`: a positional index is only added when
`parent.querySelectorAll(tag + classSelector)` (all valid class tokens, no
3-token cap, scoped to the parent's descendants) yields more than one
match; an unbuildable selector (a non-empty class attribute with no valid
token yields `tag.`) throws and counts as "add it, to be safe". -/
def shouldAddNthChild (doc : Dom) (p : List Nat) : Bool :=
  match elemAt doc p, subtreeAt doc p.dropLast, p with
  | some e, some parentSub, _ :: _ =>
    let validClasses :=
      (e.className.split (· = ' ')).filter isValidCSSIdentifier
    if e.className ≠ "" ∧ validClasses = [] then true
    else
      let seg : Seg := { tag := e.tagName, classes := validClasses,
                         nth := none }
      decide (1 < ((allPaths parentSub).filter fun q =>
        !q.isEmpty && matchesSeg parentSub q seg).length)
  | _, _, _ => false

/-- Build the chain segment for the current element: lower-cased tag, up to
three valid (escaped) class tokens, and `:nth-child(index)` — the index
among same-tag siblings — only when `shouldAddNthChild` asks for it and
there are between 2 and 20 same-tag siblings. -/
def buildSegment (doc : Dom) (cur : List Nat) (e : Elem) : Seg :=
  let classes :=
    if e.className ≠ "" ∧ e.className.trim ≠ "" then
      (((splitWs e.className).filter isValidCSSIdentifier).map
        escapeCSSIdentifier).take 3
    else []
  let nth :=
    if cur ≠ [] ∧ shouldAddNthChild doc cur then
      match subtreeAt doc cur.dropLast, cur.getLast? with
      | some parentSub, some childIdx =>
        let cs := childrenOf parentSub
        let sibs := cs.filter fun c => (rootElem c).tagName = e.tagName
        if 1 < sibs.length ∧ sibs.length ≤ 20 then
          some (((cs.take childIdx).filter
            fun c => (rootElem c).tagName = e.tagName).length + 1)
        else none
      | _, _ => none
    else none
  { tag := e.tagName, classes := classes, nth := nth }

/-- The `while` loop of `generateSelector`: walk from the element toward
the root (stopping at `document.body`, i.e. the empty path, and after 6
iterations), prepend each level's segment, and return early as soon as a
chain of at least two segments matches exactly the element.  Returns the
early-returned selector (if any) and the accumulated segment path. -/
def selectorLoop (doc : Dom) (element : List Nat) :
    Nat → List Nat → List Seg → Option Sel × List Seg
  | 0, _, path => (none, path)
  | _ + 1, [], path => (none, path)
  | fuel + 1, i :: is, path =>
    match elemAt doc (i :: is) with
    | none => (none, path)
    | some e =>
      let path2 := buildSegment doc (i :: is) e :: path
      if 2 ≤ path2.length then
        if queryAll doc (Sel.chain path2) = [element] then
          (some (Sel.chain path2), path2)
        else selectorLoop doc element fuel (i :: is).dropLast path2
      else selectorLoop doc element fuel (i :: is).dropLast path2

/-- Replace the `i`-th entry of a child list. -/
def setChild (f : Dom → Dom) : List Dom → Nat → List Dom
  | [], _ => []
  | c :: cs, 0 => f c :: cs
  | c :: cs, j + 1 => c :: setChild f cs j

/-- `element.setAttribute("data-blur-id", v)` at a path. -/
def setDataBlurId (t : Dom) (p : List Nat) (v : String) : Dom :=
  match t, p with
  | .node e cs, [] => .node { e with dataBlurId := some v } cs
  | .node e cs, i :: rest =>
    .node e (setChild (fun c => setDataBlurId c rest v) cs i)
termination_by p.length

/-- `generateSelector`: the id branch (a syntactically valid id is returned
as `#id` after a `querySelector` throw-test whose result is discarded),
the bottom-up chain walk with early uniqueness return, the final
validation of the full chain against the element, and the `data-blur-id`
imprint fallback (`freshId` stands for the generated
`blur-<timestamp>-<random>` value).  Returns the selector and the
(possibly imprinted) document. -/
def generateSelector (doc : Dom) (p : List Nat) (freshId : String) :
    Sel × Dom :=
  match elemAt doc p with
  | none => (Sel.chain [], doc)
  | some e =>
    if e.idAttr ≠ "" ∧ isValidCSSIdentifier e.idAttr then
      (Sel.idSel (escapeCSSIdentifier e.idAttr), doc)
    else
      match selectorLoop doc p 6 p [] with
      | (some sel, _) => (sel, doc)
      | (none, path) =>
        if path ≠ [] ∧ querySelector doc (Sel.chain path) = some p then
          (Sel.chain path, doc)
        else
          (Sel.attrHas "data-blur-id" freshId, setDataBlurId doc p freshId)

theorem escapeCSSIdentifier_of_valid (s : String)
    (h : isValidCSSIdentifier s = true) : escapeCSSIdentifier s = s := by
  unfold isValidCSSIdentifier at h
  unfold escapeCSSIdentifier
  have hall : ∀ c ∈ s.toList,
      (if isIdentChar c then [c] else ['\\', c]) = [c] := by
    match hl : s.toList with
    | [] => rw [hl] at h; exact absurd h (by simp)
    | c0 :: rest =>
      rw [hl] at h
      simp only [Bool.and_eq_true, List.all_eq_true] at h
      intro c hc
      rcases List.mem_cons.mp hc with rfl | hc
      · have hstart := h.1
        have hch : isIdentChar c = true := by
          simp only [isIdentStart, Bool.or_eq_true] at hstart
          simp only [isIdentChar, Bool.or_eq_true]
          tauto
        rw [if_pos hch]
      · rw [if_pos (h.2 c hc)]
  have hbind : ∀ (l : List Char),
      (∀ c ∈ l, (if isIdentChar c then [c] else ['\\', c]) = [c]) →
      (l.flatMap fun c => if isIdentChar c then [c] else ['\\', c]) = l := by
    intro l
    induction l with
    | nil => intro _; rfl
    | cons a l ih =>
      intro hl
      rw [List.flatMap_cons, hl a (by simp),
        ih (fun c hc => hl c (by simp [hc]))]
      rfl
  rw [hbind s.toList hall]
  cases s
  rfl

theorem selectorLoop_sound (doc : Dom) (element : List Nat) :
    ∀ (fuel : Nat) (cur : List Nat) (path : List Seg) (sel : Sel),
      (selectorLoop doc element fuel cur path).1 = some sel →
      queryAll doc sel = [element] := by
  intro fuel
  induction fuel with
  | zero =>
    intro cur path sel h
    simp [selectorLoop] at h
  | succ n ih =>
    intro cur path sel h
    match cur with
    | [] => simp [selectorLoop] at h
    | i :: is =>
      simp only [selectorLoop] at h
      split at h
      · simp at h
      · split at h
        · split at h
          · rename_i hque
            simp only [Prod.fst] at h
            obtain rfl : Sel.chain _ = sel := Option.some.inj h
            exact hque
          · exact ih _ _ _ h
        · exact ih _ _ _ h

theorem setChild_getElem? (f : Dom → Dom) (cs : List Dom) (i j : Nat) :
    (setChild f cs i)[j]? = if j = i then (cs[j]?).map f else cs[j]? := by
  induction cs generalizing i j with
  | nil => simp [setChild]
  | cons c cs ih =>
    match i, j with
    | 0, 0 => simp [setChild]
    | 0, j + 1 => simp [setChild]
    | i + 1, 0 => simp [setChild]
    | i + 1, j + 1 =>
      simp only [setChild, List.getElem?_cons_succ]
      rw [ih]
      by_cases hji : j = i
      · rw [if_pos hji, if_pos (by omega)]
      · rw [if_neg hji, if_neg (by omega)]

theorem elemAt_node_nil (e : Elem) (cs : List Dom) :
    elemAt (Dom.node e cs) [] = some e := rfl

theorem elemAt_node_cons (e : Elem) (cs : List Dom) (j : Nat)
    (qr : List Nat) :
    elemAt (Dom.node e cs) (j :: qr) =
      match cs[j]? with
      | some c => elemAt c qr
      | none => none := by
  cases hcj : cs[j]? with
  | none => simp [elemAt, subtreeAt, childrenOf, hcj]
  | some c => simp [elemAt, subtreeAt, childrenOf, hcj]

theorem elemAt_setDataBlurId (v : String) :
    ∀ (p : List Nat) (t : Dom) (q : List Nat),
      elemAt (setDataBlurId t p v) q =
        if q = p then
          (elemAt t p).map fun e2 => { e2 with dataBlurId := some v }
        else elemAt t q := by
  intro p
  induction p with
  | nil =>
    intro t q
    obtain ⟨e, cs⟩ := t
    simp only [setDataBlurId]
    match q with
    | [] => simp [elemAt_node_nil]
    | j :: qr =>
      rw [if_neg (by simp)]
      rw [elemAt_node_cons, elemAt_node_cons]
  | cons i pr ih =>
    intro t q
    obtain ⟨e, cs⟩ := t
    simp only [setDataBlurId]
    match q with
    | [] =>
      rw [if_neg (by simp)]
      rw [elemAt_node_nil, elemAt_node_nil]
    | j :: qr =>
      rw [elemAt_node_cons]
      rw [setChild_getElem?]
      by_cases hji : j = i
      · subst hji
        rw [if_pos rfl]
        cases hcj : cs[j]? with
        | none =>
          simp only [elemAt_node_cons, hcj, Option.map_none']
          split <;> rfl
        | some c =>
          simp only [Option.map_some']
          show elemAt (setDataBlurId c pr v) qr = _
          rw [ih c qr]
          by_cases hq : qr = pr
          · subst hq
            rw [if_pos rfl, if_pos rfl]
            simp [elemAt_node_cons, hcj]
          · rw [if_neg hq, if_neg (by simp [hq])]
            simp [elemAt_node_cons, hcj]
      · rw [if_neg hji, if_neg (by simp [hji]), elemAt_node_cons]

theorem allPathsChildren_setChild (v : String) (pr : List Nat)
    (hrec : ∀ c : Dom, allPaths (setDataBlurId c pr v) = allPaths c) :
    ∀ (cs : List Dom) (i k : Nat),
      allPathsChildren (setChild (fun c => setDataBlurId c pr v) cs i) k =
        allPathsChildren cs k := by
  intro cs
  induction cs with
  | nil => intro i k; rfl
  | cons c cs ih =>
    intro i k
    match i with
    | 0 =>
      show allPathsChildren (setDataBlurId c pr v :: cs) k = _
      rw [allPathsChildren, allPathsChildren, hrec]
    | i + 1 =>
      show allPathsChildren (c :: setChild _ cs i) k = _
      rw [allPathsChildren, allPathsChildren, ih]

theorem allPaths_setDataBlurId (v : String) :
    ∀ (p : List Nat) (t : Dom),
      allPaths (setDataBlurId t p v) = allPaths t := by
  intro p
  induction p with
  | nil =>
    intro t
    obtain ⟨e, cs⟩ := t
    simp only [setDataBlurId]
    rw [allPaths, allPaths]
  | cons i pr ih =>
    intro t
    obtain ⟨e, cs⟩ := t
    simp only [setDataBlurId]
    rw [allPaths, allPaths, allPathsChildren_setChild v pr ih]

theorem mem_allPathsChildren (pr : List Nat) :
    ∀ (cs : List Dom) (k i : Nat) (c : Dom), cs[i]? = some c →
      pr ∈ allPaths c → (k + i) :: pr ∈ allPathsChildren cs k := by
  intro cs
  induction cs with
  | nil => intro k i c h; simp at h
  | cons c0 cs ih =>
    intro k i c h hmem
    match i with
    | 0 =>
      simp only [List.getElem?_cons_zero, Option.some.injEq] at h
      subst h
      rw [Nat.add_zero, allPathsChildren]
      exact List.mem_append.mpr (Or.inl (List.mem_map.mpr ⟨pr, hmem, rfl⟩))
    | i + 1 =>
      simp only [List.getElem?_cons_succ] at h
      have hrec := ih (k + 1) i c h hmem
      have harith : k + (i + 1) = (k + 1) + i := by omega
      rw [harith, allPathsChildren]
      exact List.mem_append.mpr (Or.inr hrec)

theorem mem_allPaths_of_elemAt :
    ∀ (p : List Nat) (t : Dom) (e : Elem), elemAt t p = some e →
      p ∈ allPaths t := by
  intro p
  induction p with
  | nil =>
    intro t e h
    obtain ⟨e0, cs⟩ := t
    rw [allPaths]
    exact List.mem_cons_self _ _
  | cons i pr ih =>
    intro t e h
    obtain ⟨e0, cs⟩ := t
    rw [elemAt_node_cons] at h
    match hci : cs[i]? with
    | none => rw [hci] at h; simp at h
    | some c =>
      rw [hci] at h
      have hc := ih c e h
      have hmem := mem_allPathsChildren pr cs 0 i c hci hc
      rw [Nat.zero_add] at hmem
      rw [allPaths]
      exact List.mem_cons_of_mem _ hmem

theorem filter_head?_eq_find? {α : Type _} (p : α → Bool) (l : List α) :
    (l.filter p).head? = l.find? p := by
  induction l with
  | nil => rfl
  | cons a l ih =>
    by_cases h : p a
    · rw [List.filter_cons_of_pos h, List.find?_cons_of_pos _ h]
      rfl
    · rw [List.filter_cons_of_neg (by simp [h]),
        List.find?_cons_of_neg _ (by simp [h]), ih]

theorem find?_eq_some_of_unique {α : Type _} (p : α → Bool) (x : α)
    (hpx : p x = true) :
    ∀ l : List α, x ∈ l → (∀ y ∈ l, p y = true → y = x) →
      l.find? p = some x := by
  intro l
  induction l with
  | nil => intro hx _; simp at hx
  | cons a l ih =>
    intro hx huniq
    by_cases hpa : p a = true
    · rw [List.find?_cons_of_pos _ hpa]
      rw [huniq a (List.mem_cons_self a l) hpa]
    · rw [List.find?_cons_of_neg _ (by simp [hpa])]
      have hxl : x ∈ l := by
        rcases List.mem_cons.mp hx with rfl | hh
        · exact absurd hpx hpa
        · exact hh
      exact ih hxl fun y hy hp => huniq y (List.mem_cons_of_mem a hy) hp

theorem querySelector_idSel (t : Dom) (s : String) :
    querySelector t (Sel.idSel s) = firstWithId t s := by
  unfold querySelector queryAll firstWithId
  exact filter_head?_eq_find? _ _

/-- C1 counterexample document: two divs under the body carrying the same
id. -/
def docDupId : Dom :=
  .node { tagName := "body", idAttr := "", className := "",
          dataBlurId := none, dataBlurFallback := none }
    [ .node { tagName := "div", idAttr := "x", className := "",
              dataBlurId := none, dataBlurFallback := none } [],
      .node { tagName := "div", idAttr := "x", className := "",
              dataBlurId := none, dataBlurFallback := none } [] ]

/-- C1 counterexample: the node at path `[1]` carries the syntactically
valid id "x"; `generateSelector` returns `#x` after only a throw-test
(discarding the resolution result, with no identity confirmation), and
resolving `#x` yields the first element with that id — the node at `[0]`,
not the synthesized node — so `resolve(synthesize(n)) ≠ n` even though the
locator resolves. -/
theorem generateSelector_counterexample :
    (generateSelector docDupId [1] "f9").1 = Sel.idSel "x" ∧
    querySelector (generateSelector docDupId [1] "f9").2
        (generateSelector docDupId [1] "f9").1 = some [0] ∧
    ¬([0] : List Nat) = [1] := by
  decide

/-- C1 amended: when the node carries a syntactically valid id, the id
branch returns the single-segment id selector after a resolvability test
whose result is discarded — so the locator resolves to the node exactly
when the node is the first element in document order with that id; in
every other branch (identity-validated chains and the imprinted fresh
`data-blur-id` fallback) resolving the produced locator yields exactly the
synthesized node. -/
theorem generateSelector_roundtrip (doc : Dom) (p : List Nat) (e : Elem)
    (freshId : String) (he : elemAt doc p = some e)
    (hfresh : ∀ q ∈ allPaths doc, ∀ e2 : Elem, elemAt doc q = some e2 →
      e2.dataBlurId ≠ some freshId) :
    ((e.idAttr ≠ "" ∧ isValidCSSIdentifier e.idAttr = true) →
      (generateSelector doc p freshId).1 = Sel.idSel e.idAttr ∧
      (querySelector (generateSelector doc p freshId).2
          (generateSelector doc p freshId).1 = some p ↔
        firstWithId doc e.idAttr = some p)) ∧
    (¬(e.idAttr ≠ "" ∧ isValidCSSIdentifier e.idAttr = true) →
      querySelector (generateSelector doc p freshId).2
        (generateSelector doc p freshId).1 = some p) := by
  constructor
  · rintro ⟨hne, hvalid⟩
    have hgen : generateSelector doc p freshId = (Sel.idSel e.idAttr, doc) := by
      simp only [generateSelector, he]
      rw [if_pos ⟨hne, hvalid⟩, escapeCSSIdentifier_of_valid _ hvalid]
    rw [hgen]
    exact ⟨rfl, by rw [querySelector_idSel]⟩
  · intro hid
    have hbranch : generateSelector doc p freshId =
        match selectorLoop doc p 6 p [] with
        | (some sel, _) => (sel, doc)
        | (none, path) =>
          if path ≠ [] ∧ querySelector doc (Sel.chain path) = some p then
            (Sel.chain path, doc)
          else
            (Sel.attrHas "data-blur-id" freshId,
              setDataBlurId doc p freshId) := by
      simp only [generateSelector, he]
      rw [if_neg hid]
    match hloop : selectorLoop doc p 6 p [] with
    | (some sel, path) =>
      have hgen2 : generateSelector doc p freshId = (sel, doc) := by
        rw [hbranch]
        simp only [hloop]
      have hq := selectorLoop_sound doc p 6 p [] sel (by rw [hloop])
      rw [hgen2]
      show querySelector doc sel = some p
      unfold querySelector
      rw [hq]
      rfl
    | (none, path) =>
      by_cases hfin : path ≠ [] ∧ querySelector doc (Sel.chain path) = some p
      · have hgen2 : generateSelector doc p freshId =
            (Sel.chain path, doc) := by
          rw [hbranch]
          simp only [hloop]
          rw [if_pos hfin]
        rw [hgen2]
        exact hfin.2
      · have hgen2 : generateSelector doc p freshId =
            (Sel.attrHas "data-blur-id" freshId,
              setDataBlurId doc p freshId) := by
          rw [hbranch]
          simp only [hloop]
          rw [if_neg hfin]
        rw [hgen2]
        show querySelector (setDataBlurId doc p freshId)
          (Sel.attrHas "data-blur-id" freshId) = some p
        have hquery : queryAll (setDataBlurId doc p freshId)
            (Sel.attrHas "data-blur-id" freshId) =
            (allPaths (setDataBlurId doc p freshId)).filter fun q =>
              match elemAt (setDataBlurId doc p freshId) q with
              | some e2 => decide (e2.dataBlurId = some freshId)
              | none => false := by
          simp [queryAll]
        unfold querySelector
        rw [hquery, allPaths_setDataBlurId, filter_head?_eq_find?]
        apply find?_eq_some_of_unique
        · rw [elemAt_setDataBlurId, if_pos rfl, he]
          simp
        · exact mem_allPaths_of_elemAt p doc e he
        · intro y hy hp
          by_contra hne2
          rw [elemAt_setDataBlurId, if_neg hne2] at hp
          match hey : elemAt doc y with
          | none => rw [hey] at hp; simp at hp
          | some e2 =>
            rw [hey] at hp
            have : e2.dataBlurId = some freshId := by simpa using hp
            exact hfresh y hy e2 hey this

/-- A two-node witness document whose single child carries the unique
valid id "w". -/
def docWitness : Dom :=
  .node { tagName := "body", idAttr := "", className := "",
          dataBlurId := none, dataBlurFallback := none }
    [ .node { tagName := "div", idAttr := "w", className := "",
              dataBlurId := none, dataBlurFallback := none } [] ]

/-- Witness for `generateSelector_roundtrip`: a two-node document whose
target carries a unique valid id. -/
theorem generateSelector_roundtrip_witness :
    (("w" ≠ "" ∧ isValidCSSIdentifier "w" = true) →
      (generateSelector docWitness [0] "fresh1").1 = Sel.idSel "w" ∧
      (querySelector (generateSelector docWitness [0] "fresh1").2
          (generateSelector docWitness [0] "fresh1").1 = some [0] ↔
        firstWithId docWitness "w" = some [0])) ∧
    (¬("w" ≠ "" ∧ isValidCSSIdentifier "w" = true) →
      querySelector (generateSelector docWitness [0] "fresh1").2
        (generateSelector docWitness [0] "fresh1").1 = some [0]) :=
  generateSelector_roundtrip docWitness [0]
    { tagName := "div", idAttr := "w", className := "",
      dataBlurId := none, dataBlurFallback := none } "fresh1"
    (by decide) (by decide)

end BlurShield
